import Mathlib

/-!
# Verification of the cargo-msrv version model

A shallow embedding of the version-handling core of the `cargo-msrv`
repository (`src/manifest.rs`, `src/config.rs`), with theorems checking the
natural-language specification against the code.

Machine integers (`u64`) are embedded as `Nat` with explicit `< 2^64`
bounds where overflow matters.  Strings are processed as `List Char`, the
direct analogue of Rust's iteration over string components.
-/

namespace CargoMsrv

/-- `2^64`, the exclusive upper bound of Rust's `u64`. -/
def u64Bound : Nat := 18446744073709551616

/-- Embeds `enum BareVersion` from `src/manifest.rs` (components are `u64`,
here `Nat` carried with explicit bounds where needed). -/
inductive BareVersion where
  | TwoComponents (major minor : Nat)
  | ThreeComponents (major minor patch : Nat)
deriving DecidableEq, Repr

/-- Embeds `semver::Version` as used by the repository: the release catalog
holds stable releases (`Release::new_stable` in the tests), whose
pre-release component is empty, so only the numeric triple is modelled. -/
structure SemVersion where
  major : Nat
  minor : Nat
  patch : Nat
deriving DecidableEq, Repr

/-- Embeds the error enum `crate::CargoMSRVError` (declared in the
repository outside the provided sources; the variants and payloads used
here are exactly those constructed in `src/manifest.rs`). -/
inductive CargoMSRVError where
  | UnableToParseBareVersion (version message : String)
  | UnableToParseBareVersionNumber
  | NoVersionMatchesManifestMSRV (requirement : BareVersion)
      (available : List SemVersion)
deriving DecidableEq, Repr

/-- Embeds `semver::Comparator::matches` for the comparators built in
`BareVersion::try_to_semver`: tilde (`Op::Tilde`) comparators with
`pre = Prerelease::EMPTY`, matched against versions with no pre-release.
Per the `semver` crate's `matches_tilde`: the major components must be
equal; when the comparator pins a minor it must be equal; when it pins a
patch, the version's patch must be at least it. -/
def tildeMatches (bv : BareVersion) (v : SemVersion) : Bool :=
  match bv with
  | .TwoComponents major minor =>
      v.major == major && v.minor == minor
  | .ThreeComponents major minor patch =>
      v.major == major && v.minor == minor && patch ≤ v.patch

/-- Embeds `BareVersion::try_to_semver` from `src/manifest.rs`.  The Rust
code builds a tilde comparator from `self` and runs `iter.find` over the
catalog; when `find` returns `None` it has exhausted the iterator, so the
subsequent `iter.map(..).collect()` in the error arm collects the elements
remaining after the search — none.  The recursion below passes the
remaining iterator state explicitly. -/
def try_to_semver (bv : BareVersion) :
    List SemVersion → Except CargoMSRVError SemVersion
  | [] => .error (.NoVersionMatchesManifestMSRV bv [])
  | v :: rest =>
      if tildeMatches bv v then .ok v else try_to_semver bv rest

/-- Embeds Rust's `str::split('.')`: splits at every `'.'`, keeping empty
pieces, and always yields at least one piece (the empty string splits to a
single empty piece). -/
def splitOnDot : List Char → List (List Char)
  | [] => [[]]
  | c :: rest =>
      if c = '.' then [] :: splitOnDot rest
      else
        match splitOnDot rest with
        | [] => [[c]]
        | s :: ss => (c :: s) :: ss

/-- The numeric value of a digit string, most significant digit first
(`'0'.toNat = 48`). -/
def digitsVal (s : List Char) : Nat :=
  s.foldl (fun a c => 10 * a + (c.toNat - 48)) 0

/-- Strips one leading `'+'` sign, as Rust's unsigned-integer `FromStr`
allows. -/
def stripPlus : List Char → List Char
  | [] => []
  | c :: rest => if c = '+' then rest else c :: rest

/-- Embeds `str::parse::<u64>` (`u64::from_str`): an optional leading `'+'`
sign followed by one or more ASCII digits, whose value fits in 64 bits;
everything else (empty input, other characters, a `'-'` sign, overflow) is
a parse error, returned here as `none`. -/
def parseU64 (s : List Char) : Option Nat :=
  let t := stripPlus s
  if t ≠ [] ∧ t.all Char.isDigit ∧ digitsVal t < u64Bound then
    some (digitsVal t)
  else
    none

/-- Embeds `parse_bare_version` from `src/manifest.rs`, working on the
string's character list.  Mirrors the source's iterator protocol: the first
two components must `u64`-parse (an absent second component is its own
error); a third component, when present, is truncated at its first `'-'`
(`patch.find('-')`) before `u64`-parsing; any fourth component is trailing
garbage.  `str::split('.')` always yields a first piece, so the
"Couldn't find first component" arm of the source is unreachable and has
no counterpart here. -/
def parseBareChars (value : List Char) : Except CargoMSRVError BareVersion :=
  match splitOnDot value with
  | [] => .error (.UnableToParseBareVersion (String.mk value)
      "Couldn't find first component")
  | c1 :: rest1 =>
    match parseU64 c1 with
    | none => .error .UnableToParseBareVersionNumber
    | some major =>
      match rest1 with
      | [] => .error (.UnableToParseBareVersion (String.mk value)
          "Couldn't find second component")
      | c2 :: rest2 =>
        match parseU64 c2 with
        | none => .error .UnableToParseBareVersionNumber
        | some minor =>
          match rest2 with
          | [] => .ok (.TwoComponents major minor)
          | c3 :: rest3 =>
            match parseU64 (c3.takeWhile (fun c => c ≠ '-')) with
            | none => .error .UnableToParseBareVersionNumber
            | some patch =>
              match rest3 with
              | [] => .ok (.ThreeComponents major minor patch)
              | peek :: _ => .error (.UnableToParseBareVersion
                  (String.mk value)
                  ("Unexpected tokens at the end of version number: \x27"
                    ++ String.mk peek ++ "\x27"))

/-- Embeds `parse_bare_version` (and `TryFrom<&str> for BareVersion`) on
`String` input. -/
def parse_bare_version (value : String) : Except CargoMSRVError BareVersion :=
  parseBareChars value.data

/-- The decimal digits of `n`, most significant first, as written by Rust's
`Display` for unsigned integers. -/
def natDigits (n : Nat) : List Char :=
  if _h : n < 10 then [Nat.digitChar n]
  else natDigits (n / 10) ++ [Nat.digitChar (n % 10)]
decreasing_by
  exact Nat.div_lt_self (Nat.pos_of_ne_zero (by omega)) (by omega)

/-- Embeds `impl Display for BareVersion`: `"{major}.{minor}"` for two
components, `"{major}.{minor}.{patch}"` for three. -/
def BareVersion.display : BareVersion → List Char
  | .TwoComponents major minor => natDigits major ++ '.' :: natDigits minor
  | .ThreeComponents major minor patch =>
      natDigits major ++ '.' :: (natDigits minor ++ '.' :: natDigits patch)

/-- All components lie in `u64` range, the invariant every Rust
`BareVersion` value satisfies by construction (its fields are `u64`). -/
def BareVersion.wf : BareVersion → Prop
  | .TwoComponents major minor => major < u64Bound ∧ minor < u64Bound
  | .ThreeComponents major minor patch =>
      major < u64Bound ∧ minor < u64Bound ∧ patch < u64Bound

instance : DecidablePred BareVersion.wf := by
  intro bv
  cases bv <;> simp [BareVersion.wf] <;> infer_instance

/-- Embeds the derived `PartialEq`/`Eq` of `BareVersion`
(`#[derive(.., Eq, PartialEq)]` in `src/manifest.rs`): values are equal
exactly when they have the same variant and pairwise-equal fields. -/
def BareVersion.beq : BareVersion → BareVersion → Bool
  | .TwoComponents a b, .TwoComponents c d => a == c && b == d
  | .ThreeComponents a b p, .ThreeComponents c d q => a == c && b == d && p == q
  | _, _ => false

/-- Modelled from the spec: the provided sources derive no ordering for
`BareVersion` (only `Eq`/`PartialEq`); the spec's data model states
"Equality and ordering are component-wise", deciding the bounds-filtering
code that is outside the provided sources.  Components are compared in
order (major, then minor, then patch); when a two-component value agrees
with a three-component one on major and minor, the shorter sorts first. -/
def BareVersion.specCompare : BareVersion → BareVersion → Ordering
  | .TwoComponents a b, .TwoComponents c d =>
      (compare a c).then (compare b d)
  | .ThreeComponents a b p, .ThreeComponents c d q =>
      (compare a c).then ((compare b d).then (compare p q))
  | .TwoComponents a b, .ThreeComponents c d _ =>
      (compare a c).then ((compare b d).then .lt)
  | .ThreeComponents a b _, .TwoComponents c d =>
      (compare a c).then ((compare b d).then .gt)

/-- Embeds the fragment of `decent_toml_rs_alternative::TomlValue` the
manifest reading exercises: string values, tables, and a representative of
every non-string non-table shape (which `as_string` and `get` reject
alike).  A table's entries model the `HashMap` as an association list with
unique keys; lookup takes the first binding. -/
inductive TomlValue where
  | str (s : String)
  | int (i : Int)
  | boolean (b : Bool)
  | array (xs : List TomlValue)
  | table (entries : List (String × TomlValue))

/-- Embeds `HashMap<String, TomlValue>`, the `TomlMap` alias of
`src/manifest.rs`, as an association list with unique keys. -/
abbrev TomlMap := List (String × TomlValue)

/-- Embeds `HashMap::get`. -/
def TomlMap.get (map : TomlMap) (key : String) : Option TomlValue :=
  map.lookup key

/-- Embeds `TomlValue::get`: a table looks the key up, every other shape
yields `None`. -/
def TomlValue.get (v : TomlValue) (key : String) : Option TomlValue :=
  match v with
  | .table entries => entries.lookup key
  | _ => none

/-- Embeds `TomlValue::as_string`. -/
def TomlValue.as_string : TomlValue → Option String
  | .str s => some s
  | _ => none

/-- Embeds the inner `find_rust_version` of `find_minimum_rust_version`:
reads `package.rust-version` as a string. -/
def find_rust_version (map : TomlMap) : Option String :=
  (map.get "package").bind (fun field => field.get "rust-version")
    |>.bind TomlValue.as_string

/-- Embeds the inner `find_metadata_msrv` of `find_minimum_rust_version`:
reads `package.metadata.msrv` as a string. -/
def find_metadata_msrv (map : TomlMap) : Option String :=
  (map.get "package").bind (fun field => field.get "metadata")
    |>.bind (fun field => field.get "msrv")
    |>.bind TomlValue.as_string

/-- Embeds `find_minimum_rust_version` from `src/manifest.rs`: the
standardized `package.rust-version` key, with `package.metadata.msrv` as
the fallback (`find_rust_version(map).or_else(|| find_metadata_msrv(map))`). -/
def find_minimum_rust_version (map : TomlMap) : Option String :=
  (find_rust_version map).orElse (fun _ => find_metadata_msrv map)

/-- Embeds the free function `minimum_rust_version` of `src/manifest.rs`:
absence of a declared version is `Ok(None)`; a present value must parse as
a `BareVersion`, whose parse error propagates. -/
def minimum_rust_version (map : TomlMap) :
    Except CargoMSRVError (Option BareVersion) :=
  match find_minimum_rust_version map with
  | some version => (parse_bare_version version).map some
  | none => .ok none

/-- Embeds `struct CargoManifest` of `src/manifest.rs`. -/
structure CargoManifest where
  minimum_rust_version : Option BareVersion
deriving DecidableEq, Repr

/-- Embeds `impl TryFrom<TomlMap> for CargoManifest`. -/
def CargoManifest.tryFrom (map : TomlMap) :
    Except CargoMSRVError CargoManifest :=
  (CargoMsrv.minimum_rust_version map).map CargoManifest.mk

/-- Embeds `struct CmdMatches` of `src/config.rs`.  The borrowed argument
strings are `String`, `PathBuf` is the path's string. -/
structure CmdMatches where
  target : String
  check_command : List String
  seek_path : Option String
  include_all_patch_releases : Bool
  minimum_version : Option SemVersion
  maximum_version : Option SemVersion
deriving DecidableEq, Repr

/-- Embeds `CmdMatches::new` of `src/config.rs`. -/
def CmdMatches.new (target : String) : CmdMatches where
  target := target
  check_command := ["cargo", "build", "--all"]
  seek_path := none
  include_all_patch_releases := false
  minimum_version := none
  maximum_version := none

/-- Embeds `struct CmdMatchesBuilder` of `src/config.rs`. -/
structure CmdMatchesBuilder where
  inner : CmdMatches
deriving DecidableEq, Repr

/-- Embeds `CmdMatchesBuilder::new`. -/
def CmdMatchesBuilder.new (default_target : String) : CmdMatchesBuilder where
  inner := CmdMatches.new default_target

/-- Embeds the `target` setter of `CmdMatchesBuilder`. -/
def CmdMatchesBuilder.target (b : CmdMatchesBuilder) (t : String) :
    CmdMatchesBuilder :=
  { b with inner := { b.inner with target := t } }

/-- Embeds the `check_command` setter of `CmdMatchesBuilder`. -/
def CmdMatchesBuilder.check_command (b : CmdMatchesBuilder)
    (cmd : List String) : CmdMatchesBuilder :=
  { b with inner := { b.inner with check_command := cmd } }

/-- Embeds the `seek_path` setter of `CmdMatchesBuilder` (the
`path.map(|p| PathBuf::from(p.as_ref()))` conversion is the identity on the
path's string). -/
def CmdMatchesBuilder.seek_path (b : CmdMatchesBuilder)
    (path : Option String) : CmdMatchesBuilder :=
  { b with inner := { b.inner with seek_path := path } }

/-- Embeds the `include_all_patch_releases` setter of `CmdMatchesBuilder`. -/
def CmdMatchesBuilder.include_all_patch_releases (b : CmdMatchesBuilder)
    (answer : Bool) : CmdMatchesBuilder :=
  { b with inner := { b.inner with include_all_patch_releases := answer } }

/-- Embeds the `minimum_version` setter of `CmdMatchesBuilder`. -/
def CmdMatchesBuilder.minimum_version (b : CmdMatchesBuilder)
    (version : Option SemVersion) : CmdMatchesBuilder :=
  { b with inner := { b.inner with minimum_version := version } }

/-- Embeds the `maximum_version` setter of `CmdMatchesBuilder`. -/
def CmdMatchesBuilder.maximum_version (b : CmdMatchesBuilder)
    (version : Option SemVersion) : CmdMatchesBuilder :=
  { b with inner := { b.inner with maximum_version := version } }

/-- Embeds `CmdMatchesBuilder::build`. -/
def CmdMatchesBuilder.build (b : CmdMatchesBuilder) : CmdMatches :=
  b.inner

end CargoMsrv

namespace CargoMsrv

theorem try_to_semver_eq_find (bv : BareVersion) (catalog : List SemVersion) :
    try_to_semver bv catalog =
      match catalog.find? (fun v => tildeMatches bv v) with
      | some v => .ok v
      | none => .error (.NoVersionMatchesManifestMSRV bv []) := by
  induction catalog with
  | nil => rfl
  | cons v rest ih =>
      by_cases h : tildeMatches bv v
      · simp [try_to_semver, List.find?, h]
      · simp [try_to_semver, List.find?, h, ih]

theorem try_to_semver_ok_matches (bv : BareVersion) (cat : List SemVersion)
    (v : SemVersion) (h : try_to_semver bv cat = .ok v) :
    tildeMatches bv v = true := by
  induction cat with
  | nil => exact absurd h (by simp [try_to_semver])
  | cons w rest ih =>
      by_cases hw : tildeMatches bv w
      · have hv : w = v := by simpa [try_to_semver, hw] using h
        subst hv
        exact hw
      · exact ih (by simpa [try_to_semver, hw] using h)

theorem try_to_semver_ok_iff (bv : BareVersion) (cat : List SemVersion)
    (v : SemVersion) :
    try_to_semver bv cat = .ok v ↔
      ∃ pre post, cat = pre ++ v :: post ∧
        (∀ u ∈ pre, tildeMatches bv u = false) ∧ tildeMatches bv v = true := by
  induction cat with
  | nil =>
      constructor
      · intro h
        exact absurd h (by simp [try_to_semver])
      · rintro ⟨pre, post, hcat, -, -⟩
        exact absurd hcat (by simp)
  | cons w rest ih =>
      constructor
      · intro h
        by_cases hw : tildeMatches bv w
        · have hv : w = v := by simpa [try_to_semver, hw] using h
          subst hv
          exact ⟨[], rest, rfl, by simp, hw⟩
        · have h' : try_to_semver bv rest = .ok v := by
            simpa [try_to_semver, hw] using h
          obtain ⟨pre, post, hcat, hpre, hv⟩ := ih.mp h'
          refine ⟨w :: pre, post, by simp [hcat], ?_, hv⟩
          intro u hu
          rcases List.mem_cons.mp hu with rfl | hu
          · simpa using hw
          · exact hpre u hu
      · rintro ⟨pre, post, hcat, hpre, hv⟩
        cases pre with
        | nil =>
            simp only [List.nil_append, List.cons.injEq] at hcat
            obtain ⟨rfl, rfl⟩ := hcat
            simp [try_to_semver, hv]
        | cons p pre' =>
            simp only [List.cons_append, List.cons.injEq] at hcat
            obtain ⟨rfl, hcat'⟩ := hcat
            have hw : tildeMatches bv w = false := hpre w (by simp)
            have : try_to_semver bv rest = .ok v :=
              ih.mpr ⟨pre', post, hcat', fun u hu => hpre u (by simp [hu]), hv⟩
            simpa [try_to_semver, hw] using this

theorem splitOnDot_ne_nil (l : List Char) : splitOnDot l ≠ [] := by
  induction l with
  | nil => simp [splitOnDot]
  | cons c rest ih =>
      by_cases hc : c = '.'
      · simp [splitOnDot, hc]
      · cases hs : splitOnDot rest with
        | nil => simp [splitOnDot, hc, hs]
        | cons s ss => simp [splitOnDot, hc, hs]

theorem splitOnDot_no_dot (l : List Char) (h : '.' ∉ l) :
    splitOnDot l = [l] := by
  induction l with
  | nil => rfl
  | cons c rest ih =>
      have hc : c ≠ '.' := fun hc => h (hc ▸ List.mem_cons_self c rest)
      have hrest : '.' ∉ rest := fun hr => h (List.mem_cons_of_mem c hr)
      rw [splitOnDot, if_neg hc, ih hrest]

theorem splitOnDot_append (l r : List Char) (h : '.' ∉ l) :
    splitOnDot (l ++ '.' :: r) = l :: splitOnDot r := by
  induction l with
  | nil =>
      simp [splitOnDot]
  | cons c rest ih =>
      have hc : c ≠ '.' := fun hc => h (hc ▸ List.mem_cons_self c rest)
      have hrest : '.' ∉ rest := fun hr => h (List.mem_cons_of_mem c hr)
      rw [List.cons_append, splitOnDot, if_neg hc, ih hrest]

theorem digitChar_isDigit (k : Nat) (h : k < 10) :
    (Nat.digitChar k).isDigit = true := by
  revert h
  revert k
  decide

theorem digitChar_toNat (k : Nat) (h : k < 10) :
    (Nat.digitChar k).toNat - 48 = k := by
  revert h
  revert k
  decide

theorem natDigits_ne_nil (n : Nat) : natDigits n ≠ [] := by
  rw [natDigits]
  split <;> simp

theorem natDigits_all_digit (n : Nat) :
    ∀ c ∈ natDigits n, c.isDigit = true := by
  induction n using Nat.strong_induction_on with
  | _ n ih =>
      intro c hc
      rw [natDigits] at hc
      split at hc
      · rename_i h
        simp only [List.mem_singleton] at hc
        exact hc ▸ digitChar_isDigit n h
      · rename_i h
        rcases List.mem_append.mp hc with hc | hc
        · exact ih (n / 10) (Nat.div_lt_self (by omega) (by omega)) c hc
        · simp only [List.mem_singleton] at hc
          exact hc ▸ digitChar_isDigit (n % 10) (Nat.mod_lt _ (by omega))

theorem isDigit_ne (c : Char) (h : c.isDigit = true) :
    c ≠ '.' ∧ c ≠ '+' ∧ c ≠ '-' := by
  refine ⟨?_, ?_, ?_⟩ <;> rintro rfl <;> simp at h

theorem natDigits_not_dot (n : Nat) : '.' ∉ natDigits n := by
  intro h
  exact (isDigit_ne _ (natDigits_all_digit n _ h)).1 rfl

theorem digitsVal_append_singleton (l : List Char) (c : Char) :
    digitsVal (l ++ [c]) = 10 * digitsVal l + (c.toNat - 48) := by
  simp [digitsVal, List.foldl_append]

theorem digitsVal_natDigits (n : Nat) : digitsVal (natDigits n) = n := by
  induction n using Nat.strong_induction_on with
  | _ n ih =>
      rw [natDigits]
      split
      · rename_i h
        show 10 * 0 + ((Nat.digitChar n).toNat - 48) = n
        rw [digitChar_toNat n h]
        omega
      · rename_i h
        rw [digitsVal_append_singleton,
          ih (n / 10) (Nat.div_lt_self (by omega) (by omega)),
          digitChar_toNat (n % 10) (Nat.mod_lt _ (by omega))]
        omega

theorem stripPlus_of_digits (l : List Char)
    (h : ∀ c ∈ l, c.isDigit = true) (hne : l ≠ []) : stripPlus l = l := by
  cases l with
  | nil => exact absurd rfl hne
  | cons c rest =>
      have : c ≠ '+' := (isDigit_ne c (h c (List.mem_cons_self c rest))).2.1
      rw [stripPlus, if_neg this]

theorem parseU64_natDigits (n : Nat) (h : n < u64Bound) :
    parseU64 (natDigits n) = some n := by
  rw [parseU64]
  rw [stripPlus_of_digits _ (natDigits_all_digit n) (natDigits_ne_nil n)]
  rw [if_pos]
  · rw [digitsVal_natDigits]
  · refine ⟨natDigits_ne_nil n, ?_, ?_⟩
    · exact List.all_eq_true.mpr fun c hc => natDigits_all_digit n c hc
    · rw [digitsVal_natDigits]
      exact h

theorem parseU64_nil : parseU64 [] = none := rfl

theorem parseU64_none_of_nondigit (s : List Char) (c : Char)
    (hc : c ∈ stripPlus s) (h : c.isDigit = false) : parseU64 s = none := by
  rw [parseU64, if_neg]
  rintro ⟨-, hall, -⟩
  rw [List.all_eq_true] at hall
  rw [hall c hc] at h
  simp at h

theorem parseU64_none_of_overflow (s : List Char)
    (h : u64Bound ≤ digitsVal (stripPlus s)) : parseU64 s = none := by
  rw [parseU64, if_neg]
  rintro ⟨-, -, hlt⟩
  omega

theorem takeWhile_of_no_dash (l : List Char) (h : '-' ∉ l) :
    l.takeWhile (fun c => c ≠ '-') = l := by
  induction l with
  | nil => rfl
  | cons c rest ih =>
      have hc : c ≠ '-' := fun e => h (e ▸ List.mem_cons_self c rest)
      have hrest : '-' ∉ rest := fun hr => h (List.mem_cons_of_mem c hr)
      simp only [List.takeWhile]
      rw [decide_eq_true hc, ih hrest]

theorem takeWhile_until_dash (a r : List Char) (h : '-' ∉ a) :
    (a ++ '-' :: r).takeWhile (fun c => c ≠ '-') = a := by
  induction a with
  | nil => simp [List.takeWhile]
  | cons c rest ih =>
      have hc : c ≠ '-' := fun e => h (e ▸ List.mem_cons_self c rest)
      have hrest : '-' ∉ rest := fun hr => h (List.mem_cons_of_mem c hr)
      rw [List.cons_append]
      simp only [List.takeWhile]
      rw [decide_eq_true hc, ih hrest]

theorem parseBareChars_two_ok (v c1 c2 : List Char) (M m : Nat)
    (h : splitOnDot v = [c1, c2]) (h1 : parseU64 c1 = some M)
    (h2 : parseU64 c2 = some m) :
    parseBareChars v = .ok (.TwoComponents M m) := by
  simp only [parseBareChars, h, h1, h2]

theorem parseBareChars_three_ok (v c1 c2 c3 : List Char) (M m p : Nat)
    (h : splitOnDot v = [c1, c2, c3]) (h1 : parseU64 c1 = some M)
    (h2 : parseU64 c2 = some m)
    (h3 : parseU64 (c3.takeWhile (fun c => c ≠ '-')) = some p) :
    parseBareChars v = .ok (.ThreeComponents M m p) := by
  simp only [parseBareChars, h, h1, h2, h3]

theorem parseBareChars_err_first (v c1 : List Char)
    (rest : List (List Char)) (h : splitOnDot v = c1 :: rest)
    (h1 : parseU64 c1 = none) :
    parseBareChars v = .error .UnableToParseBareVersionNumber := by
  simp only [parseBareChars, h, h1]

theorem parseBareChars_err_second (v c1 c2 : List Char)
    (rest : List (List Char)) (h : splitOnDot v = c1 :: c2 :: rest)
    (h2 : parseU64 c2 = none) :
    ∃ e, parseBareChars v = .error e := by
  cases h1 : parseU64 c1 with
  | none => exact ⟨_, parseBareChars_err_first v c1 _ h h1⟩
  | some M =>
      refine ⟨.UnableToParseBareVersionNumber, ?_⟩
      simp only [parseBareChars, h, h1, h2]

theorem parseBareChars_err_third (v c1 c2 c3 : List Char)
    (rest : List (List Char)) (h : splitOnDot v = c1 :: c2 :: c3 :: rest)
    (h3 : parseU64 (c3.takeWhile (fun c => c ≠ '-')) = none) :
    ∃ e, parseBareChars v = .error e := by
  cases h1 : parseU64 c1 with
  | none => exact ⟨_, parseBareChars_err_first v c1 _ h h1⟩
  | some M =>
      cases h2 : parseU64 c2 with
      | none => exact parseBareChars_err_second v c1 c2 _ h h2
      | some m =>
          refine ⟨.UnableToParseBareVersionNumber, ?_⟩
          simp only [parseBareChars, h, h1, h2, h3]

theorem parseBareChars_err_missing_second (v c1 : List Char)
    (h : splitOnDot v = [c1]) : ∃ e, parseBareChars v = .error e := by
  cases h1 : parseU64 c1 with
  | none => exact ⟨_, parseBareChars_err_first v c1 _ h h1⟩
  | some M =>
      refine ⟨.UnableToParseBareVersion (String.mk v)
        "Couldn't find second component", ?_⟩
      simp only [parseBareChars, h, h1]

theorem parseBareChars_err_fourth (v c1 c2 c3 c4 : List Char)
    (rest : List (List Char))
    (h : splitOnDot v = c1 :: c2 :: c3 :: c4 :: rest) :
    ∃ e, parseBareChars v = .error e := by
  cases h1 : parseU64 c1 with
  | none => exact ⟨_, parseBareChars_err_first v c1 _ h h1⟩
  | some M =>
      cases h2 : parseU64 c2 with
      | none => exact parseBareChars_err_second v c1 c2 _ h h2
      | some m =>
          cases h3 : parseU64 (c3.takeWhile (fun c => c ≠ '-')) with
          | none => exact parseBareChars_err_third v c1 c2 c3 _ h h3
          | some p =>
              refine ⟨.UnableToParseBareVersion (String.mk v)
                ("Unexpected tokens at the end of version number: \x27"
                  ++ String.mk c4 ++ "\x27"), ?_⟩
              simp only [parseBareChars, h, h1, h2, h3]

theorem ordering_then_eq_lt (o1 o2 : Ordering) :
    o1.then o2 = .lt ↔ o1 = .lt ∨ (o1 = .eq ∧ o2 = .lt) := by
  cases o1 <;> cases o2 <;> simp [Ordering.then]

theorem ordering_then_eq_eq (o1 o2 : Ordering) :
    o1.then o2 = .eq ↔ o1 = .eq ∧ o2 = .eq := by
  cases o1 <;> cases o2 <;> simp [Ordering.then]

/-- C1: matching a `BareVersion` against a release catalog treats the bare
version as a tilde requirement — `TwoComponents (major, minor)` matches any
release with the same major.minor, `ThreeComponents (major, minor, patch)`
matches a release iff it shares major.minor and has at least the pinned
patch — and `try_to_semver` returns the first matching release in catalog
order.  Over the catalog `[1.54.0, 1.54.1, 1.54.2, 1.55.0]`,
`TwoComponents (1, 54)` resolves to `1.54.0` and
`ThreeComponents (1, 54, 1)` to `1.54.1`; neither ever resolves to
`1.55.0`, over any catalog. -/
theorem tilde_matching_resolves_first_release :
    (∀ (M m : Nat) (v : SemVersion),
        tildeMatches (.TwoComponents M m) v = true ↔
          v.major = M ∧ v.minor = m)
  ∧ (∀ (M m p : Nat) (v : SemVersion),
        tildeMatches (.ThreeComponents M m p) v = true ↔
          v.major = M ∧ v.minor = m ∧ p ≤ v.patch)
  ∧ (∀ (bv : BareVersion) (cat : List SemVersion) (v : SemVersion),
        try_to_semver bv cat = .ok v ↔
          ∃ pre post, cat = pre ++ v :: post ∧
            (∀ u ∈ pre, tildeMatches bv u = false) ∧
            tildeMatches bv v = true)
  ∧ try_to_semver (.TwoComponents 1 54)
      [⟨1, 54, 0⟩, ⟨1, 54, 1⟩, ⟨1, 54, 2⟩, ⟨1, 55, 0⟩] = .ok ⟨1, 54, 0⟩
  ∧ try_to_semver (.ThreeComponents 1 54 1)
      [⟨1, 54, 0⟩, ⟨1, 54, 1⟩, ⟨1, 54, 2⟩, ⟨1, 55, 0⟩] = .ok ⟨1, 54, 1⟩
  ∧ (∀ cat : List SemVersion,
        try_to_semver (.TwoComponents 1 54) cat ≠ .ok ⟨1, 55, 0⟩ ∧
        try_to_semver (.ThreeComponents 1 54 1) cat ≠ .ok ⟨1, 55, 0⟩) := by
  refine ⟨?_, ?_, try_to_semver_ok_iff, rfl, rfl, ?_⟩
  · intro M m v
    simp [tildeMatches, Bool.and_eq_true, beq_iff_eq]
  · intro M m p v
    simp only [tildeMatches, Bool.and_eq_true, beq_iff_eq,
      decide_eq_true_eq, and_assoc]
  · intro cat
    refine ⟨fun h => ?_, fun h => ?_⟩
    · have := try_to_semver_ok_matches _ cat _ h
      simp [tildeMatches] at this
    · have := try_to_semver_ok_matches _ cat _ h
      simp [tildeMatches] at this

/-- Witness for C1 at concrete inputs: `1.54.2` is returned when it is the
first release of the `1.54` line in the catalog, the `1.55.0` in front of
it not matching. -/
theorem tilde_matching_resolves_first_release_witness :
    try_to_semver (.TwoComponents 1 54) [⟨1, 55, 0⟩, ⟨1, 54, 2⟩]
      = .ok ⟨1, 54, 2⟩ :=
  (tilde_matching_resolves_first_release.2.2.1 _ _ _).mpr
    ⟨[⟨1, 55, 0⟩], [], rfl, by decide, by decide⟩

/-- C2: in `try_to_semver`, when no release matches, `iter.find` has
already exhausted the iterator, so the error's `available` payload — meant
to carry the full list of the catalog's versions — is always collected
empty.  Evaluated at the failing input `TwoComponents (1, 54)` against
catalog `[1.55.0, 1.56.0]`. -/
theorem no_matching_release_error_payload :
    try_to_semver (.TwoComponents 1 54) [⟨1, 55, 0⟩, ⟨1, 56, 0⟩]
      = .error (.NoVersionMatchesManifestMSRV (.TwoComponents 1 54) []) :=
  rfl

/-- C3 counterexample: the claim asserts `"1.1-nightly"` parses
successfully, but `parse_bare_version` only strips a pre-release suffix
from the third component, so the second component `1-nightly` fails
numeric parsing (the repository's own `parse_rust_version_faulty_versions`
test lists `"1.1-nightly"` as faulty). -/
theorem two_component_pre_release_fails_to_parse :
    parse_bare_version "1.1-nightly"
      = .error .UnableToParseBareVersionNumber :=
  rfl

/-- C3 (amended): only the third component has a pre-release suffix
(`-...`) stripped before numeric parsing, leaving the earlier components
untouched, so three-component inputs such as `"0.0.0-nightly"` parse to
their numeric components while two-component inputs such as
`"1.1-nightly"` are parse errors; a build-metadata suffix attached
directly to a three-component value without a pre-release suffix
(`"0.0.0+some"`) is rejected. -/
theorem pre_release_stripped_only_in_patch :
    (∀ (M m p : Nat) (suffix : List Char), M < u64Bound → m < u64Bound →
        p < u64Bound → '.' ∉ suffix →
        parseBareChars (natDigits M ++ '.' :: (natDigits m ++ '.' ::
            (natDigits p ++ '-' :: suffix))) = .ok (.ThreeComponents M m p))
  ∧ (∀ (M m : Nat) (suffix : List Char), '.' ∉ suffix →
        ∃ e, parseBareChars (natDigits M ++ '.' ::
            (natDigits m ++ '-' :: suffix)) = .error e)
  ∧ parse_bare_version "0.0.0-nightly" = .ok (.ThreeComponents 0 0 0)
  ∧ parse_bare_version "0.0.0+some"
      = .error .UnableToParseBareVersionNumber := by
  refine ⟨?_, ?_, rfl, rfl⟩
  · intro M m p suffix hM hm hp hsuf
    have hdash : '-' ∉ natDigits p := by
      intro hd
      have := natDigits_all_digit p '-' hd
      simp at this
    have hc3 : '.' ∉ natDigits p ++ '-' :: suffix := by
      intro hd
      rcases List.mem_append.mp hd with hd | hd
      · exact natDigits_not_dot p hd
      · rcases List.mem_cons.mp hd with hd | hd
        · exact absurd hd.symm (by decide)
        · exact hsuf hd
    refine parseBareChars_three_ok _ (natDigits M) (natDigits m)
      (natDigits p ++ '-' :: suffix) M m p ?_
      (parseU64_natDigits M hM) (parseU64_natDigits m hm) ?_
    · rw [splitOnDot_append _ _ (natDigits_not_dot M),
        splitOnDot_append _ _ (natDigits_not_dot m),
        splitOnDot_no_dot _ hc3]
    · rw [takeWhile_until_dash _ _ hdash]
      exact parseU64_natDigits p hp
  · intro M m suffix hsuf
    have hc2 : '.' ∉ natDigits m ++ '-' :: suffix := by
      intro hd
      rcases List.mem_append.mp hd with hd | hd
      · exact natDigits_not_dot m hd
      · rcases List.mem_cons.mp hd with hd | hd
        · exact absurd hd.symm (by decide)
        · exact hsuf hd
    have hsplit : splitOnDot (natDigits M ++ '.' ::
        (natDigits m ++ '-' :: suffix))
        = natDigits M :: (natDigits m ++ '-' :: suffix) :: [] := by
      rw [splitOnDot_append _ _ (natDigits_not_dot M),
        splitOnDot_no_dot _ hc2]
    obtain ⟨d, ds, hds⟩ := List.exists_cons_of_ne_nil (natDigits_ne_nil m)
    have hd : d.isDigit = true := natDigits_all_digit m d (by
      rw [hds]
      exact List.mem_cons_self d ds)
    have hplus : stripPlus (natDigits m ++ '-' :: suffix)
        = natDigits m ++ '-' :: suffix := by
      rw [hds, List.cons_append, stripPlus,
        if_neg (isDigit_ne d hd).2.1]
    refine parseBareChars_err_second _ _ _ _ hsplit
      (parseU64_none_of_nondigit _ '-' ?_ (by decide))
    rw [hplus]
    exact List.mem_append.mpr (Or.inr (List.mem_cons_self _ _))

/-- Witness for C3 (amended) at a concrete input: `1.54.0-beta` parses to
`ThreeComponents (1, 54, 0)`. -/
theorem pre_release_stripped_only_in_patch_witness :
    parseBareChars (natDigits 1 ++ '.' :: (natDigits 54 ++ '.' ::
        (natDigits 0 ++ '-' :: ['b', 'e', 't', 'a'])))
      = .ok (.ThreeComponents 1 54 0) :=
  pre_release_stripped_only_in_patch.1 1 54 0 ['b', 'e', 't', 'a']
    (by decide) (by decide) (by decide) (by decide)

/-- C4 counterexample: the claim says only purely numeric components are
accepted, but a component may begin with a `'+'` sign — Rust's
`u64::from_str` allows an optional leading `'+'` — so `"1.+2"` parses
successfully to `TwoComponents (1, 2)`. -/
theorem plus_signed_component_accepted :
    parse_bare_version "1.+2" = .ok (.TwoComponents 1 2) :=
  rfl

/-- C4 (amended): `parse_bare_version` accepts only two- or
three-component dot-separated strings whose components parse as unsigned
64-bit integers (digits with an optional leading `'+'` sign; the third
component is first truncated at its first `'-'`): an input with a fourth
or later component, a missing or empty first or second component, a
component with a non-digit character beyond these allowances (in
particular a negative sign), or a component whose value exceeds
`2^64 - 1` is a parse error. -/
theorem parse_bare_version_rejects_malformed :
    (∀ (v c1 c2 c3 c4 : List Char) (rest : List (List Char)),
        splitOnDot v = c1 :: c2 :: c3 :: c4 :: rest →
        ∃ e, parseBareChars v = .error e)
  ∧ (∀ (v : List Char) (rest : List (List Char)),
        splitOnDot v = [] :: rest → ∃ e, parseBareChars v = .error e)
  ∧ (∀ (v c1 : List Char), splitOnDot v = [c1] →
        ∃ e, parseBareChars v = .error e)
  ∧ (∀ (v c1 : List Char) (rest : List (List Char)),
        splitOnDot v = c1 :: [] :: rest → ∃ e, parseBareChars v = .error e)
  ∧ (∀ (v c1 : List Char) (rest : List (List Char)) (c : Char),
        splitOnDot v = c1 :: rest → c ∈ stripPlus c1 → c.isDigit = false →
        parseBareChars v = .error .UnableToParseBareVersionNumber)
  ∧ (∀ (v c1 c2 : List Char) (rest : List (List Char)) (c : Char),
        splitOnDot v = c1 :: c2 :: rest → c ∈ stripPlus c2 →
        c.isDigit = false → ∃ e, parseBareChars v = .error e)
  ∧ (∀ (v c1 c2 c3 : List Char) (rest : List (List Char)) (c : Char),
        splitOnDot v = c1 :: c2 :: c3 :: rest →
        c ∈ stripPlus (c3.takeWhile (fun c => c ≠ '-')) →
        c.isDigit = false → ∃ e, parseBareChars v = .error e)
  ∧ (∀ (v c1 : List Char) (rest : List (List Char)),
        splitOnDot v = c1 :: rest →
        u64Bound ≤ digitsVal (stripPlus c1) →
        parseBareChars v = .error .UnableToParseBareVersionNumber)
  ∧ (∀ (v c1 c2 : List Char) (rest : List (List Char)),
        splitOnDot v = c1 :: c2 :: rest →
        u64Bound ≤ digitsVal (stripPlus c2) →
        ∃ e, parseBareChars v = .error e)
  ∧ (∀ (v c1 c2 c3 : List Char) (rest : List (List Char)),
        splitOnDot v = c1 :: c2 :: c3 :: rest →
        u64Bound ≤ digitsVal (stripPlus (c3.takeWhile (fun c => c ≠ '-'))) →
        ∃ e, parseBareChars v = .error e) := by
  refine ⟨?_, ?_, ?_, ?_, ?_, ?_, ?_, ?_, ?_, ?_⟩
  · exact fun v c1 c2 c3 c4 rest h => parseBareChars_err_fourth v _ _ _ _ _ h
  · exact fun v rest h => ⟨_, parseBareChars_err_first v _ _ h parseU64_nil⟩
  · exact fun v c1 h => parseBareChars_err_missing_second v c1 h
  · exact fun v c1 rest h => parseBareChars_err_second v _ _ _ h parseU64_nil
  · exact fun v c1 rest c h hc hnd =>
      parseBareChars_err_first v _ _ h (parseU64_none_of_nondigit _ _ hc hnd)
  · exact fun v c1 c2 rest c h hc hnd =>
      parseBareChars_err_second v _ _ _ h
        (parseU64_none_of_nondigit _ _ hc hnd)
  · exact fun v c1 c2 c3 rest c h hc hnd =>
      parseBareChars_err_third v _ _ _ _ h
        (parseU64_none_of_nondigit _ _ hc hnd)
  · exact fun v c1 rest h hov =>
      parseBareChars_err_first v _ _ h (parseU64_none_of_overflow _ hov)
  · exact fun v c1 c2 rest h hov =>
      parseBareChars_err_second v _ _ _ h (parseU64_none_of_overflow _ hov)
  · exact fun v c1 c2 c3 rest h hov =>
      parseBareChars_err_third v _ _ _ _ h (parseU64_none_of_overflow _ hov)

/-- Witness for C4 (amended) at concrete inputs: `"1.1.0.0"` (a fourth
component) and `"0.0.-1"` (a negative patch) fail to parse. -/
theorem parse_bare_version_rejects_malformed_witness :
    (∃ e, parse_bare_version "1.1.0.0" = .error e)
  ∧ parse_bare_version "-1.0" = .error .UnableToParseBareVersionNumber :=
  ⟨parse_bare_version_rejects_malformed.1 ("1.1.0.0".data)
      ['1'] ['1'] ['0'] ['0'] [] rfl,
    parse_bare_version_rejects_malformed.2.2.2.2.1 ("-1.0".data)
      ['-', '1'] [['0']] '-' rfl (by decide) (by decide)⟩

/-- C5: parsing round-trips with display — for every `BareVersion` value
(its components in `u64` range, as every Rust value's are),
`parse_bare_version` applied to its `Display` rendering
(`"major.minor"` or `"major.minor.patch"`) returns the value itself. -/
theorem parse_display_round_trip (bv : BareVersion) (h : bv.wf) :
    parse_bare_version (String.mk bv.display) = .ok bv := by
  cases bv with
  | TwoComponents M m =>
      obtain ⟨hM, hm⟩ := h
      show parseBareChars (natDigits M ++ '.' :: natDigits m) = _
      exact parseBareChars_two_ok _ _ _ _ _
        (by rw [splitOnDot_append _ _ (natDigits_not_dot M),
              splitOnDot_no_dot _ (natDigits_not_dot m)])
        (parseU64_natDigits M hM) (parseU64_natDigits m hm)
  | ThreeComponents M m p =>
      obtain ⟨hM, hm, hp⟩ := h
      show parseBareChars (natDigits M ++ '.' ::
        (natDigits m ++ '.' :: natDigits p)) = _
      have hdash : '-' ∉ natDigits p := by
        intro hd
        have := natDigits_all_digit p '-' hd
        simp at this
      refine parseBareChars_three_ok _ (natDigits M) (natDigits m)
        (natDigits p) M m p ?_
        (parseU64_natDigits M hM) (parseU64_natDigits m hm) ?_
      · rw [splitOnDot_append _ _ (natDigits_not_dot M),
          splitOnDot_append _ _ (natDigits_not_dot m),
          splitOnDot_no_dot _ (natDigits_not_dot p)]
      · rw [takeWhile_of_no_dash _ hdash]
        exact parseU64_natDigits p hp

/-- Witness for C5 at a concrete input: the rendering of
`ThreeComponents (1, 54, 1)` parses back to it. -/
theorem parse_display_round_trip_witness :
    parse_bare_version
        (String.mk (BareVersion.ThreeComponents 1 54 1).display)
      = .ok (.ThreeComponents 1 54 1) :=
  parse_display_round_trip _ (by decide)

/-- C6: the manifest-derived minimum bound is read from the standardized
`package.rust-version` key when it yields a string, and only otherwise
falls back to `package.metadata.msrv`; the selected string is the one
parsed as the `BareVersion` bound. -/
theorem rust_version_key_takes_precedence :
    (∀ (map : TomlMap) (s : String), find_rust_version map = some s →
        find_minimum_rust_version map = some s ∧
        minimum_rust_version map = (parse_bare_version s).map some)
  ∧ (∀ (map : TomlMap) (t : String), find_rust_version map = none →
        find_metadata_msrv map = some t →
        find_minimum_rust_version map = some t ∧
        minimum_rust_version map = (parse_bare_version t).map some) := by
  constructor
  · intro map s h
    have hmin : find_minimum_rust_version map = some s := by
      rw [find_minimum_rust_version, h]
      rfl
    exact ⟨hmin, by rw [minimum_rust_version, hmin]⟩
  · intro map t h h2
    have hmin : find_minimum_rust_version map = some t := by
      rw [find_minimum_rust_version, h]
      exact h2
    exact ⟨hmin, by rw [minimum_rust_version, hmin]⟩

/-- Witness for C6 at a concrete manifest holding both keys: the
`rust-version` string wins over the `metadata.msrv` one. -/
theorem rust_version_key_takes_precedence_witness :
    find_minimum_rust_version
        [("package", TomlValue.table
          [("rust-version", TomlValue.str "1.56"),
            ("metadata", TomlValue.table [("msrv", TomlValue.str "1.51")])])]
      = some "1.56" :=
  (rust_version_key_takes_precedence.1
    [("package", TomlValue.table
      [("rust-version", TomlValue.str "1.56"),
        ("metadata", TomlValue.table [("msrv", TomlValue.str "1.51")])])]
    "1.56" rfl).1

/-- C7: a freshly constructed configuration has validation command
`["cargo", "build", "--all"]`, `include_all_patch_releases` false, and no
minimum bound, maximum bound, or seek path. -/
theorem cmd_matches_new_defaults (target : String) :
    (CmdMatches.new target).target = target ∧
    (CmdMatches.new target).check_command = ["cargo", "build", "--all"] ∧
    (CmdMatches.new target).include_all_patch_releases = false ∧
    (CmdMatches.new target).seek_path = none ∧
    (CmdMatches.new target).minimum_version = none ∧
    (CmdMatches.new target).maximum_version = none :=
  ⟨rfl, rfl, rfl, rfl, rfl, rfl⟩

/-- C8: equality on `BareVersion` is component-wise — two values are equal
iff they have the same constructor and pairwise-equal components — and the
(spec-modelled) ordering compares components in order, its `eq` outcome
coinciding with equality. -/
theorem bare_version_eq_ord_componentwise :
    (∀ x y : BareVersion, BareVersion.beq x y = true ↔ x = y)
  ∧ (∀ a b c d : Nat,
        BareVersion.beq (.TwoComponents a b) (.TwoComponents c d) = true ↔
          a = c ∧ b = d)
  ∧ (∀ a b p c d q : Nat,
        BareVersion.beq (.ThreeComponents a b p)
            (.ThreeComponents c d q) = true ↔
          a = c ∧ b = d ∧ p = q)
  ∧ (∀ a b c d q : Nat,
        BareVersion.beq (.TwoComponents a b)
          (.ThreeComponents c d q) = false)
  ∧ (∀ a b p c d : Nat,
        BareVersion.beq (.ThreeComponents a b p)
          (.TwoComponents c d) = false)
  ∧ (∀ a b c d : Nat,
        BareVersion.specCompare (.TwoComponents a b)
            (.TwoComponents c d) = .lt ↔
          a < c ∨ (a = c ∧ b < d))
  ∧ (∀ a b p c d q : Nat,
        BareVersion.specCompare (.ThreeComponents a b p)
            (.ThreeComponents c d q) = .lt ↔
          a < c ∨ (a = c ∧ (b < d ∨ (b = d ∧ p < q))))
  ∧ (∀ x y : BareVersion, BareVersion.specCompare x y = .eq ↔ x = y) := by
  have hbeq2 : ∀ a b c d : Nat,
      BareVersion.beq (.TwoComponents a b) (.TwoComponents c d) = true ↔
        a = c ∧ b = d := by
    intro a b c d
    simp [BareVersion.beq]
  have hbeq3 : ∀ a b p c d q : Nat,
      BareVersion.beq (.ThreeComponents a b p)
          (.ThreeComponents c d q) = true ↔ a = c ∧ b = d ∧ p = q := by
    intro a b p c d q
    simp [BareVersion.beq, and_assoc]
  refine ⟨?_, hbeq2, hbeq3, ?_, ?_, ?_, ?_, ?_⟩
  · intro x y
    cases x <;> cases y <;>
      simp [BareVersion.beq, BareVersion.TwoComponents.injEq,
        BareVersion.ThreeComponents.injEq, and_assoc]
  · intro a b c d q
    rfl
  · intro a b p c d
    rfl
  · intro a b c d
    rw [BareVersion.specCompare, ordering_then_eq_lt,
      Nat.compare_eq_lt, Nat.compare_eq_lt, Nat.compare_eq_eq]
  · intro a b p c d q
    rw [BareVersion.specCompare, ordering_then_eq_lt, ordering_then_eq_lt,
      Nat.compare_eq_lt, Nat.compare_eq_lt, Nat.compare_eq_lt,
      Nat.compare_eq_eq, Nat.compare_eq_eq]
  · intro x y
    cases x <;> cases y <;>
      simp [BareVersion.specCompare, ordering_then_eq_eq,
        Nat.compare_eq_eq, BareVersion.TwoComponents.injEq,
        BareVersion.ThreeComponents.injEq, and_assoc]

/-- Witness for C8 at concrete inputs: `1.54 = 1.54` componentwise, and
`1.54 < 1.55` under the component-wise order. -/
theorem bare_version_eq_ord_componentwise_witness :
    BareVersion.beq (.TwoComponents 1 54) (.TwoComponents 1 54) = true ∧
    BareVersion.specCompare (.TwoComponents 1 54)
      (.TwoComponents 1 55) = .lt :=
  ⟨(bare_version_eq_ord_componentwise.2.1 1 54 1 54).mpr ⟨rfl, rfl⟩,
    (bare_version_eq_ord_componentwise.2.2.2.2.2.1 1 54 1 55).mpr
      (Or.inr ⟨rfl, by omega⟩)⟩

/-- C9: a manifest map lacking both the `package.rust-version` and
`package.metadata.msrv` keys converts to a `CargoManifest` with
`minimum_rust_version = None`; conversion errors exactly when a present
value fails to parse as a `BareVersion`. -/
theorem manifest_without_declared_msrv_is_ok :
    (∀ map : TomlMap, find_minimum_rust_version map = none →
        CargoManifest.tryFrom map = .ok ⟨none⟩)
  ∧ (∀ map : TomlMap,
        (∃ e, CargoManifest.tryFrom map = .error e) ↔
          ∃ s e, find_minimum_rust_version map = some s ∧
            parse_bare_version s = .error e) := by
  constructor
  · intro map h
    rw [CargoManifest.tryFrom, minimum_rust_version, h]
    rfl
  · intro map
    rw [CargoManifest.tryFrom, minimum_rust_version]
    cases hf : find_minimum_rust_version map with
    | none =>
        simp [Except.map]
    | some s =>
        cases hp : parse_bare_version s with
        | error e =>
            simp only [hp, Except.map]
            constructor
            · intro
              exact ⟨s, e, rfl, hp⟩
            · intro
              exact ⟨e, rfl⟩
        | ok bv =>
            simp only [hp, Except.map]
            constructor
            · rintro ⟨e, he⟩
              exact absurd he (by simp)
            · rintro ⟨s', e, hs, hpe⟩
              obtain rfl : s = s' := by injection hs
              rw [hp] at hpe
              exact absurd hpe (by simp)

/-- Witness for C9 at a concrete input: the empty manifest map converts to
a `CargoManifest` with no minimum version. -/
theorem manifest_without_declared_msrv_is_ok_witness :
    CargoManifest.tryFrom [] = .ok ⟨none⟩ :=
  manifest_without_declared_msrv_is_ok.1 [] rfl

/-- C10: every `CmdMatchesBuilder` setter modifies only its own field of
the built `CmdMatches`: for every builder state and argument, the other
five fields are unchanged (and the setter's own field takes the
argument). -/
theorem builder_setters_preserve_other_fields :
    (∀ (b : CmdMatchesBuilder) (t : String),
        ((b.target t).build).check_command = b.build.check_command ∧
        ((b.target t).build).seek_path = b.build.seek_path ∧
        ((b.target t).build).include_all_patch_releases
          = b.build.include_all_patch_releases ∧
        ((b.target t).build).minimum_version = b.build.minimum_version ∧
        ((b.target t).build).maximum_version = b.build.maximum_version ∧
        ((b.target t).build).target = t)
  ∧ (∀ (b : CmdMatchesBuilder) (cmd : List String),
        ((b.check_command cmd).build).target = b.build.target ∧
        ((b.check_command cmd).build).seek_path = b.build.seek_path ∧
        ((b.check_command cmd).build).include_all_patch_releases
          = b.build.include_all_patch_releases ∧
        ((b.check_command cmd).build).minimum_version
          = b.build.minimum_version ∧
        ((b.check_command cmd).build).maximum_version
          = b.build.maximum_version ∧
        ((b.check_command cmd).build).check_command = cmd)
  ∧ (∀ (b : CmdMatchesBuilder) (path : Option String),
        ((b.seek_path path).build).target = b.build.target ∧
        ((b.seek_path path).build).check_command = b.build.check_command ∧
        ((b.seek_path path).build).include_all_patch_releases
          = b.build.include_all_patch_releases ∧
        ((b.seek_path path).build).minimum_version
          = b.build.minimum_version ∧
        ((b.seek_path path).build).maximum_version
          = b.build.maximum_version ∧
        ((b.seek_path path).build).seek_path = path)
  ∧ (∀ (b : CmdMatchesBuilder) (answer : Bool),
        ((b.include_all_patch_releases answer).build).target
          = b.build.target ∧
        ((b.include_all_patch_releases answer).build).check_command
          = b.build.check_command ∧
        ((b.include_all_patch_releases answer).build).seek_path
          = b.build.seek_path ∧
        ((b.include_all_patch_releases answer).build).minimum_version
          = b.build.minimum_version ∧
        ((b.include_all_patch_releases answer).build).maximum_version
          = b.build.maximum_version ∧
        ((b.include_all_patch_releases answer).build).include_all_patch_releases
          = answer)
  ∧ (∀ (b : CmdMatchesBuilder) (version : Option SemVersion),
        ((b.minimum_version version).build).target = b.build.target ∧
        ((b.minimum_version version).build).check_command
          = b.build.check_command ∧
        ((b.minimum_version version).build).seek_path = b.build.seek_path ∧
        ((b.minimum_version version).build).include_all_patch_releases
          = b.build.include_all_patch_releases ∧
        ((b.minimum_version version).build).maximum_version
          = b.build.maximum_version ∧
        ((b.minimum_version version).build).minimum_version = version)
  ∧ (∀ (b : CmdMatchesBuilder) (version : Option SemVersion),
        ((b.maximum_version version).build).target = b.build.target ∧
        ((b.maximum_version version).build).check_command
          = b.build.check_command ∧
        ((b.maximum_version version).build).seek_path = b.build.seek_path ∧
        ((b.maximum_version version).build).include_all_patch_releases
          = b.build.include_all_patch_releases ∧
        ((b.maximum_version version).build).minimum_version
          = b.build.minimum_version ∧
        ((b.maximum_version version).build).maximum_version = version) :=
  ⟨fun _ _ => ⟨rfl, rfl, rfl, rfl, rfl, rfl⟩,
    fun _ _ => ⟨rfl, rfl, rfl, rfl, rfl, rfl⟩,
    fun _ _ => ⟨rfl, rfl, rfl, rfl, rfl, rfl⟩,
    fun _ _ => ⟨rfl, rfl, rfl, rfl, rfl, rfl⟩,
    fun _ _ => ⟨rfl, rfl, rfl, rfl, rfl, rfl⟩,
    fun _ _ => ⟨rfl, rfl, rfl, rfl, rfl, rfl⟩⟩

end CargoMsrv
